import Mathlib

/-!
# Radar backend pipeline: verification of the spec's claims

Shallow embedding of the ingestion–classification–aggregation pipeline of
`src/main.py`.  Text is modelled as `List Char`; Python's `str.lower()` is
modelled by mapping `Char.toLower`, `str.strip()` by `trimList`, the
substring operator `in` by `occursIn`.  Timestamps are modelled as natural
numbers (the pipeline never computes with their internal structure beyond
equality and "published or now").  The external store (Supabase) is
modelled as a list of rows; the per-URL existence probe's possible failure
is modelled by a boolean oracle `probeFails`.
-/

/-- Whitespace class shared by Python's `str.strip()` and the regex `\s`
(CPython's Py_UNICODE_ISSPACE): tab through carriage return (9-13), the
separator controls and space (28-32), next line (133), and the Unicode
space characters NBSP (160), Ogham space (5760), the 2000-200A range,
line/paragraph separators (8232, 8233), NNBSP (8239), MMSP (8287) and
ideographic space (12288). -/
def isWsp (c : Char) : Bool :=
  (9 ≤ c.toNat && c.toNat ≤ 13) || (28 ≤ c.toNat && c.toNat ≤ 32)
  || c.toNat = 133 || c.toNat = 160 || c.toNat = 5760
  || (8192 ≤ c.toNat && c.toNat ≤ 8202) || c.toNat = 8232
  || c.toNat = 8233 || c.toNat = 8239 || c.toNat = 8287 || c.toNat = 12288

/-- Python `s.strip()` on the left: drop leading whitespace. -/
def trimLeft (l : List Char) : List Char := l.dropWhile isWsp

/-- Drop trailing whitespace. -/
def dropTrailing (l : List Char) : List Char := (l.reverse.dropWhile isWsp).reverse

/-- Python `s.strip()`: drop leading and trailing whitespace. -/
def trimList (l : List Char) : List Char := dropTrailing (l.dropWhile isWsp)

/-- Python `s.lower()` (ASCII case folding). -/
def lowerL (l : List Char) : List Char := l.map Char.toLower

/-- Convenience: the character list of a string literal. -/
def chars (s : String) : List Char := s.toList

/-- `begins kw l`: does `l` start with `kw`? -/
def begins : List Char → List Char → Bool
  | [], _ => true
  | _ :: _, [] => false
  | k :: ks, c :: cs => k = c && begins ks cs

/-- Python's substring operator: `occursIn kw t` models `kw in t`. -/
def occursIn (kw : List Char) : List Char → Bool
  | [] => kw.isEmpty
  | c :: rest => begins kw (c :: rest) || occursIn kw rest

/-- Positive cue words of `classify_sentiment_simple` (src/main.py:69). -/
def pos_words : List (List Char) :=
  [chars "mejor", chars "avance", chars "inaugura", chars "beneficio",
   chars "logro", chars "soluciona", chars "reduce", chars "aumenta",
   chars "éxito"]

/-- Negative cue words of `classify_sentiment_simple` (src/main.py:70). -/
def neg_words : List (List Char) :=
  [chars "crisis", chars "denuncia", chars "protesta", chars "muere",
   chars "violencia", chars "asalt", chars "robo", chars "corrup",
   chars "caos", chars "colaps"]

/-- `classify_sentiment_simple` (src/main.py:64-82): lowercase the text,
add 1 for each positive cue that occurs, subtract 1 for each negative cue
that occurs, then threshold the score. -/
def classify_sentiment_simple (text : List Char) : String :=
  let t := lowerL text
  let score : Int :=
    neg_words.foldl (fun a w => if occursIn w t then a - 1 else a)
      (pos_words.foldl (fun a w => if occursIn w t then a + 1 else a) 0)
  if score ≥ 1 then "pos" else if score ≤ -1 then "neg" else "neu"

/-- The sentiment rule as the spec words it: the score is the number of
positive keywords occurring (each counted once) minus the number of
negative keywords occurring, thresholded the same way. -/
def sentiment_by_counts (text : List Char) : String :=
  let t := lowerL text
  let score : Int :=
    ((pos_words.filter fun w => occursIn w t).length : Int)
      - ((neg_words.filter fun w => occursIn w t).length : Int)
  if score ≥ 1 then "pos" else if score ≤ -1 then "neg" else "neu"

/-- Topic rules of `topic_from_text_simple` (src/main.py:89-98), in source
order. -/
def topic_rules : List (String × List (List Char)) :=
  [("seguridad", [chars "seguridad", chars "asalto", chars "robo",
                  chars "homicidio", chars "sicariato", chars "delinc"]),
   ("obras", [chars "obra", chars "puente", chars "vía", chars "carretera",
              chars "construcción", chars "asfalto"]),
   ("basura", [chars "basura", chars "desechos", chars "recolección",
               chars "relleno", chars "contaminación"]),
   ("tráfico", [chars "tráfico", chars "congestión", chars "choque",
                chars "accidente", chars "movilidad"]),
   ("agua", [chars "agua", chars "potable", chars "corte", chars "tubería",
             chars "alcantarillado"]),
   ("impuestos", [chars "impuesto", chars "tasa", chars "tribut",
                  chars "sri", chars "predial"]),
   ("parques", [chars "parque", chars "área verde", chars "recreación",
                chars "malecon", chars "malecón"]),
   ("empleo", [chars "empleo", chars "trabajo", chars "desempleo",
               chars "contrat", chars "vacantes"])]

/-- One rule fires if any of its keywords occurs in the (lowercased) text. -/
def ruleHit (t : List Char) (r : String × List (List Char)) : Bool :=
  r.2.any fun k => occursIn k t

/-- The `for topic, kws in rules` loop of `topic_from_text_simple`:
return the first rule that fires, `"otros"` if none does. -/
def firstTopic (t : List Char) : List (String × List (List Char)) → String
  | [] => "otros"
  | r :: rest => if ruleHit t r then r.1 else firstTopic t rest

/-- `topic_from_text_simple` (src/main.py:84-102). -/
def topic_from_text_simple (text : List Char) : String :=
  firstTopic (lowerL text) topic_rules

/-- Modelled from the spec: the repository's source (src/main.py) contains
no aggregator computing a reputation index — the trending endpoint only
produces per-topic counts — so the formula is taken verbatim from §4.4 of
the spec: with total = pos+neu+neg treated as at least 1,
raw = ((pos - neg) / total + 1) * 50, clamped to [0, 100] and rounded to
the nearest integer. -/
def reputation_index (pos neu neg : Nat) : Int :=
  let total : Nat := max (pos + neu + neg) 1
  let raw : ℚ := (((pos : ℚ) - (neg : ℚ)) / (total : ℚ) + 1) * 50
  round (max 0 (min 100 raw))

/-- One raw RSS feed entry as the ingest loop reads it
(src/main.py:409-413): optional title, link, summary, and published
timestamp (modelled as a natural number). -/
structure Entry where
  title : Option (List Char)
  link : Option (List Char)
  summary : Option (List Char)
  published : Option Nat
deriving DecidableEq

/-- Python's `(getattr(e, f, None) or "").strip() or None`: a missing,
empty or whitespace-only field becomes `none`, otherwise it is trimmed. -/
def normField : Option (List Char) → Option (List Char)
  | none => none
  | some s => let s2 := trimList s; if s2 = [] then none else some s2

/-- Python `" ".join(xs)`. -/
def joinSp : List (List Char) → List Char
  | [] => []
  | [x] => x
  | x :: y :: xs => x ++ ' ' :: joinSp (y :: xs)

/-- The text blob of an entry: present title and summary joined with a
space and trimmed (src/main.py:421). -/
def blobOf (e : Entry) : List Char :=
  trimList (joinSp (([normField e.title, normField e.summary]).filterMap id))

/-- A mentions-table row as built by `ingest_rss` (src/main.py:441-458).
The `gender` and `age_range` fields, constantly None, are omitted. -/
structure Row where
  created_at : Nat
  source : String
  country : String
  city : Option String
  platform : String
  target : String
  author : Option String
  title : Option (List Char)
  text : List Char
  url : Option (List Char)
  sentiment : String
  score : Nat
  topic : String
  lang : String
deriving DecidableEq

/-- Ingestion configuration and environment: the request parameters, the
current time, the store contents at the start of the run, and an oracle
telling for which URLs the dedup probe raises (store unavailable). -/
structure Cfg where
  country : String
  city : Option String
  target : String
  now : Nat
  store : List Row
  probeFails : List Char → Bool

/-- The row appended for a non-empty entry (src/main.py:441-458). -/
def mkRow (cfg : Cfg) (e : Entry) : Row :=
  let blob := blobOf e
  let sentiment := classify_sentiment_simple blob
  { created_at := e.published.getD cfg.now
    source := "rss"
    country := cfg.country
    city := cfg.city
    platform := "news"
    target := cfg.target
    author := none
    title := normField e.title
    text := blob.take 2000
    url := normField e.link
    sentiment := sentiment
    score := if sentiment = "pos" then 70 else if sentiment = "neu" then 50 else 35
    topic := topic_from_text_simple blob
    lang := "es" }

/-- Does some stored row carry exactly this url? (the dedup probe,
src/main.py:433). -/
def urlInRows (rows : List Row) (u : List Char) : Bool :=
  rows.any fun r => r.url = some u

/-- Running state of the entry loop: the batch collected so far and the
skip counter. -/
structure IngestState where
  rows : List Row
  skipped : Nat
deriving DecidableEq

/-- Body of the per-entry loop (src/main.py:409-458): an empty blob is
skipped; an entry with a URL is probed — a failing probe falls through to
insertion (src/main.py:437-439), a found URL is skipped — and everything
else is classified and appended to the batch. -/
def processEntry (cfg : Cfg) (st : IngestState) (e : Entry) : IngestState :=
  if blobOf e = [] then { st with skipped := st.skipped + 1 }
  else
    match normField e.link with
    | some u =>
      if cfg.probeFails u then { st with rows := st.rows ++ [mkRow cfg e] }
      else if urlInRows cfg.store u then { st with skipped := st.skipped + 1 }
      else { st with rows := st.rows ++ [mkRow cfg e] }
    | none => { st with rows := st.rows ++ [mkRow cfg e] }

/-- A feed source: `some entries` when it parses, `none` for an
unreachable or malformed source — feedparser never raises for those, it
returns a result object with an empty entry list, which the loop at
src/main.py:405-407 then iterates over. -/
abbrev Feed := Option (List Entry)

/-- `parsed.entries[:limit_per_feed]` (src/main.py:407). -/
def fetchFeed (limit : Nat) (f : Feed) : List Entry := (f.getD []).take limit

/-- One iteration of the `for feed_url in feeds` loop. -/
def runFeed (cfg : Cfg) (limit : Nat) (st : IngestState) (f : Feed) : IngestState :=
  (fetchFeed limit f).foldl (processEntry cfg) st

/-- What `ingest_rss` returns (src/main.py:464-469), together with the
batch it inserted. -/
structure IngestResult where
  feeds_used : Nat
  inserted : Nat
  skipped : Nat
  rows : List Row
deriving DecidableEq

/-- `ingest_rss` (src/main.py:365-469): loop over the feeds, then insert
the collected batch; `inserted` is the size of that batch. -/
def ingest_rss (cfg : Cfg) (limit : Nat) (feeds : List Feed) : IngestResult :=
  let st := feeds.foldl (runFeed cfg limit) ⟨[], 0⟩
  ⟨feeds.length, st.rows.length, st.skipped, st.rows⟩

/-- The flat stream of entries an ingestion run processes. -/
def entryStream (limit : Nat) : List Feed → List Entry
  | [] => []
  | f :: fs => fetchFeed limit f ++ entryStream limit fs

/-- One row as the trending endpoint reads it back from the store
(src/main.py:310): topic and sentiment as stored, possibly missing.  The
score column only feeds the floating-point average, which no claim
touches, so it is not modelled. -/
structure TrendItem where
  topic : Option String
  sentiment : Option String
deriving DecidableEq

/-- `(it.get("topic") or "otros").strip()`, re-defaulted to "otros" when
the stripped result is empty (src/main.py:323-325). -/
def normTopic (t : Option String) : String :=
  let t0 := match t with
    | none => "otros"
    | some s => if s = "" then "otros" else s
  let t1 : String := ⟨trimList t0.data⟩
  if t1 = "" then "otros" else t1

/-- `it.get("sentiment") or "neu"`, coerced into the three classes
(src/main.py:329-331). -/
def normSent (s : Option String) : String :=
  let s0 := match s with
    | none => "neu"
    | some x => if x = "" then "neu" else x
  if s0 = "pos" ∨ s0 = "neu" ∨ s0 = "neg" then s0 else "neu"

/-- One per-topic aggregate row of the trending endpoint
(src/main.py:326-332): mention count and the three sentiment counters. -/
structure TopicAgg where
  topic : String
  count : Nat
  pos : Nat
  neu : Nat
  neg : Nat
deriving DecidableEq

/-- `agg[tp]["count"] += 1; agg[tp][s] += 1` (src/main.py:328-332). -/
def bumpAgg (r : TopicAgg) (s : String) : TopicAgg :=
  { r with
    count := r.count + 1
    pos := if s = "pos" then r.pos + 1 else r.pos
    neu := if s = "neu" then r.neu + 1 else r.neu
    neg := if s = "neg" then r.neg + 1 else r.neg }

/-- Insert-or-update in the insertion-ordered association list modelling
the Python dict `agg` (src/main.py:326-327). -/
def updAgg (tp s : String) : List TopicAgg → List TopicAgg
  | [] => [bumpAgg ⟨tp, 0, 0, 0, 0⟩ s]
  | r :: rest =>
    if r.topic = tp then bumpAgg r s :: rest else r :: updAgg tp s rest

/-- The grouping loop of `trending` (src/main.py:321-332). -/
def trendingAgg (items : List TrendItem) : List TopicAgg :=
  items.foldl (fun m it => updAgg (normTopic it.topic) (normSent it.sentiment) m) []

/-- Total of the per-topic mention counters. -/
def sumCounts (m : List TopicAgg) : Nat := (m.map TopicAgg.count).sum

/-- `int(m.group(1))`: a digit string as a number. -/
def digitsVal (l : List Char) : Nat :=
  l.foldl (fun a c => a * 10 + (c.toNat - 48)) 0

/-- The final `([hd])$` of the window regex: exactly one remaining
character, and it is a unit letter. -/
def unitOf : List Char → Option Char
  | [c] => if c = 'h' || c = 'd' then some c else none
  | _ => none

/-- The regex match `^(\d+)\s*([hd])$` of `parse_window` (src/main.py:55):
one or more digits, optional whitespace, one final unit letter.  The three
character classes are disjoint, so the regex is deterministic and greedy
scanning implements it exactly. -/
def matchWindow (l : List Char) : Option (Nat × Char) :=
  if l.takeWhile Char.isDigit = [] then none
  else (unitOf ((l.dropWhile Char.isDigit).dropWhile isWsp)).map
    fun c => (digitsVal (l.takeWhile Char.isDigit), c)

/-- Python's `(window or "24h").strip().lower()` (src/main.py:54). -/
def normWindow (s : String) : List Char :=
  lowerL (trimList (if s = "" then chars "24h" else s.toList))

/-- `parse_window` (src/main.py:50-62), with the returned timedelta
expressed in hours ('h' gives n hours, 'd' gives 24·n hours, no match
gives 24 hours). -/
def parse_window (window : String) : Nat :=
  match matchWindow (normWindow window) with
  | none => 24
  | some (n, u) => if u = 'h' then n else 24 * n

theorem foldl_count_add (l : List (List Char)) (p : List Char → Bool) (a : Int) :
    l.foldl (fun acc w => if p w then acc + 1 else acc) a
      = a + ((l.filter p).length : Int) := by
  induction l generalizing a with
  | nil => simp
  | cons x xs ih =>
    cases hp : p x
    · simp [List.foldl_cons, hp, ih]
    · simp only [List.foldl_cons, hp, if_true, List.filter_cons_of_pos,
        List.length_cons, ih]
      push_cast
      ring

theorem foldl_count_sub (l : List (List Char)) (p : List Char → Bool) (a : Int) :
    l.foldl (fun acc w => if p w then acc - 1 else acc) a
      = a - ((l.filter p).length : Int) := by
  induction l generalizing a with
  | nil => simp
  | cons x xs ih =>
    cases hp : p x
    · simp [List.foldl_cons, hp, ih]
    · simp only [List.foldl_cons, hp, if_true, List.filter_cons_of_pos,
        List.length_cons, ih]
      push_cast
      ring

/-- C2: for every text, sentiment classification equals the
count-of-matching-keywords rule from the spec (each keyword counted at
most once, `score >= 1` gives "pos", `score <= -1` gives "neg", otherwise
"neu"); empty text yields "neu"; the output is always one of pos/neu/neg;
and the spec's example sentence classifies as "pos". -/
theorem C2_sentiment_count_rule (text : List Char) :
    classify_sentiment_simple text = sentiment_by_counts text
    ∧ classify_sentiment_simple [] = "neu"
    ∧ (classify_sentiment_simple text = "pos"
        ∨ classify_sentiment_simple text = "neu"
        ∨ classify_sentiment_simple text = "neg")
    ∧ classify_sentiment_simple
        (chars "Se inaugura el nuevo puente, gran avance") = "pos" := by
  refine ⟨?_, by decide, ?_, by decide⟩
  · unfold classify_sentiment_simple sentiment_by_counts
    simp only [foldl_count_add, foldl_count_sub, zero_add]
  · unfold classify_sentiment_simple
    dsimp only
    split
    · exact Or.inl rfl
    · split
      · exact Or.inr (Or.inr rfl)
      · exact Or.inr (Or.inl rfl)

theorem round_le_round_rat {x y : ℚ} (h : x ≤ y) : round x ≤ round y := by
  rw [round_eq, round_eq]
  exact Int.floor_mono (by linarith)

theorem round_clamp_mem (x : ℚ) :
    0 ≤ round (max 0 (min 100 x)) ∧ round (max 0 (min 100 x)) ≤ 100 := by
  constructor
  · have h : (0 : ℚ) ≤ max 0 (min 100 x) := le_max_left _ _
    have h2 := round_le_round_rat h
    rwa [round_zero] at h2
  · have h : max 0 (min 100 x) ≤ (100 : ℚ) := max_le (by norm_num) (min_le_left _ _)
    have h2 := round_le_round_rat h
    have h100 : round ((100 : ℚ)) = 100 := by
      have h3 := round_intCast (α := ℚ) 100
      push_cast at h3
      exact h3
    rwa [h100] at h2

theorem round_clamp_const {x : ℚ} {k : ℤ} (hx0 : 0 ≤ x) (hx100 : x ≤ 100)
    (hk : x = (k : ℚ)) : round (max 0 (min 100 x)) = k := by
  rw [min_eq_right hx100, max_eq_right hx0, hk, round_intCast]

theorem firstTopic_all_miss (t : List Char) :
    ∀ rules : List (String × List (List Char)),
      (∀ r ∈ rules, ruleHit t r = false) → firstTopic t rules = "otros"
  | [], _ => rfl
  | r :: rest, h => by
    have h0 : ruleHit t r = false := h r (List.mem_cons_self r rest)
    simp only [firstTopic, h0, Bool.false_eq_true, if_false]
    exact firstTopic_all_miss t rest fun q hq => h q (List.mem_cons_of_mem r hq)

theorem firstTopic_first_hit (t : List Char) :
    ∀ (rules : List (String × List (List Char))) (i : Nat) (h : i < rules.length),
      ruleHit t (rules.get ⟨i, h⟩) = true →
      (∀ j (hj : j < rules.length), j < i → ruleHit t (rules.get ⟨j, hj⟩) = false) →
      firstTopic t rules = (rules.get ⟨i, h⟩).1
  | [], i, h => absurd h (by simp)
  | r :: rest, 0, _ => fun hhit _ => by
    simp only [List.get] at hhit ⊢
    simp [firstTopic, hhit]
  | r :: rest, i + 1, h => fun hhit hmin => by
    have h0 : ruleHit t r = false := by
      have := hmin 0 (Nat.succ_pos rest.length) (Nat.succ_pos i)
      simpa using this
    simp only [firstTopic, h0, Bool.false_eq_true, if_false]
    exact firstTopic_first_hit t rest i (Nat.lt_of_succ_lt_succ h) hhit
      fun j hj hlt => hmin (j + 1) (Nat.succ_lt_succ hj) (Nat.succ_lt_succ hlt)

/-- C3: topic classification returns "otros" when no rule's keyword set
matches the lowercased text, and otherwise returns the topic of the
earliest rule (in the configured order) that matches; in particular a text
containing both "agua" and "impuesto" resolves to "agua", the
earlier-listed of the two topics. -/
theorem C3_topic_first_match_wins (text : List Char) :
    ((∀ r ∈ topic_rules, ruleHit (lowerL text) r = false) →
        topic_from_text_simple text = "otros")
    ∧ (∀ i (h : i < topic_rules.length),
        ruleHit (lowerL text) (topic_rules.get ⟨i, h⟩) = true →
        (∀ j (hj : j < topic_rules.length), j < i →
            ruleHit (lowerL text) (topic_rules.get ⟨j, hj⟩) = false) →
        topic_from_text_simple text = (topic_rules.get ⟨i, h⟩).1)
    ∧ topic_from_text_simple (chars "sube el agua y el impuesto") = "agua" := by
  refine ⟨?_, ?_, by decide⟩
  · exact fun h => firstTopic_all_miss (lowerL text) topic_rules h
  · exact fun i h hhit hmin =>
      firstTopic_first_hit (lowerL text) topic_rules i h hhit hmin

/-- Witness for C3: the text "impuesto puro" matches only the rule at
index 5 ("impuestos"), so the theorem yields that topic. -/
theorem C3_topic_first_match_wins_witness :
    ruleHit (lowerL (chars "impuesto puro")) (topic_rules.get ⟨5, by decide⟩) = true
    ∧ topic_from_text_simple (chars "impuesto puro") = "impuestos" := by
  refine ⟨by decide, ?_⟩
  have h := (C3_topic_first_match_wins (chars "impuesto puro")).2.1 5 (by decide)
    (by decide) (by decide)
  exact h.trans (by decide)

/-- C1: the reputation index — computed from pos/neu/neg counts with
total treated as at least 1, raw = ((pos - neg)/total + 1) * 50, clamped
to [0,100] and rounded — always lies in [0,100]; it is 50 for the empty
and the all-neutral bucket, 100 when all mentions are positive and 0 when
all are negative. -/
theorem C1_reputation_index_range_and_anchors (p u n : Nat) :
    (0 ≤ reputation_index p u n ∧ reputation_index p u n ≤ 100)
    ∧ reputation_index 0 0 0 = 50
    ∧ reputation_index 0 u 0 = 50
    ∧ (0 < p → reputation_index p 0 0 = 100)
    ∧ (0 < n → reputation_index 0 0 n = 0) := by
  refine ⟨round_clamp_mem _, ?_, ?_, ?_, ?_⟩
  · simp only [reputation_index]
    apply round_clamp_const (k := 50)
    · norm_num
    · norm_num
    · norm_num
  · simp only [reputation_index]
    apply round_clamp_const (k := 50)
    · norm_num
    · norm_num
    · norm_num
  · intro hp
    have hp' : ((p : ℚ)) ≠ 0 := Nat.cast_ne_zero.mpr hp.ne'
    simp only [reputation_index]
    have hmax : max (p + 0 + 0) 1 = p := by omega
    rw [hmax]
    apply round_clamp_const (k := 100)
    · rw [Nat.cast_zero, sub_zero, div_self hp']
      norm_num
    · rw [Nat.cast_zero, sub_zero, div_self hp']
      norm_num
    · rw [Nat.cast_zero, sub_zero, div_self hp']
      norm_num
  · intro hn
    have hn' : ((n : ℚ)) ≠ 0 := Nat.cast_ne_zero.mpr hn.ne'
    simp only [reputation_index]
    have hmax : max (0 + 0 + n) 1 = n := by omega
    rw [hmax]
    apply round_clamp_const (k := 0)
    · rw [Nat.cast_zero, zero_sub, neg_div, div_self hn']
      norm_num
    · rw [Nat.cast_zero, zero_sub, neg_div, div_self hn']
      norm_num
    · rw [Nat.cast_zero, zero_sub, neg_div, div_self hn']
      norm_num

theorem processEntry_rows_cases (cfg : Cfg) (st : IngestState) (e : Entry) :
    (processEntry cfg st e).rows = st.rows
    ∨ (blobOf e ≠ [] ∧ (processEntry cfg st e).rows = st.rows ++ [mkRow cfg e]) := by
  unfold processEntry
  by_cases hb : blobOf e = []
  · simp [hb]
  · cases hl : normField e.link with
    | none => simp [hb, hl]
    | some u =>
      by_cases hp : cfg.probeFails u
      · simp [hb, hl, hp]
      · by_cases hf : urlInRows cfg.store u
        · simp [hb, hl, hp, hf]
        · simp [hb, hl, hp, hf]

theorem foldl_rows_append (cfg : Cfg) :
    ∀ (es : List Entry) (st : IngestState),
      ∃ t, (es.foldl (processEntry cfg) st).rows = st.rows ++ t
  | [], st => ⟨[], by simp⟩
  | e :: es, st => by
    obtain ⟨t, ht⟩ := foldl_rows_append cfg es (processEntry cfg st e)
    rcases processEntry_rows_cases cfg st e with h | ⟨_, h⟩
    · exact ⟨t, by rw [List.foldl_cons, ht, h]⟩
    · refine ⟨mkRow cfg e :: t, ?_⟩
      rw [List.foldl_cons, ht, h, List.append_assoc]
      rfl

theorem foldl_feeds_eq_stream (cfg : Cfg) (limit : Nat) :
    ∀ (feeds : List Feed) (st : IngestState),
      feeds.foldl (runFeed cfg limit) st
        = (entryStream limit feeds).foldl (processEntry cfg) st
  | [], _ => rfl
  | f :: fs, st => by
    rw [List.foldl_cons, entryStream, List.foldl_append]
    exact foldl_feeds_eq_stream cfg limit fs (runFeed cfg limit st f)

theorem mem_entryStream {limit : Nat} {feeds : List Feed} {e : Entry} :
    e ∈ entryStream limit feeds ↔ ∃ f ∈ feeds, e ∈ fetchFeed limit f := by
  induction feeds with
  | nil => simp [entryStream]
  | cons f fs ih => simp [entryStream, List.mem_append, ih]

/-- C7: a feed entry whose text blob (title and summary joined and
trimmed) is empty is skipped: the batch is unchanged and the skip counter
increments by one; no error is raised. -/
theorem C7_empty_blob_skipped (cfg : Cfg) (st : IngestState) (e : Entry)
    (h : blobOf e = []) :
    processEntry cfg st e = { st with skipped := st.skipped + 1 } := by
  simp [processEntry, h]

/-- Witness for C7: an entry with no title and no summary has an empty
blob and is counted as skipped without entering the batch. -/
theorem C7_empty_blob_skipped_witness :
    blobOf ⟨none, some (chars "http:y"), none, none⟩ = []
    ∧ processEntry ⟨"EC", none, "t", 0, [], fun _ => false⟩ ⟨[], 0⟩
        ⟨none, some (chars "http:y"), none, none⟩ = ⟨[], 1⟩ := by
  refine ⟨by decide, ?_⟩
  have h := C7_empty_blob_skipped ⟨"EC", none, "t", 0, [], fun _ => false⟩ ⟨[], 0⟩
      ⟨none, some (chars "http:y"), none, none⟩ (by decide)
  simpa using h

/-- C5: when the dedup probe for an entry's URL fails, the run is not
aborted: the entry is still classified and appended to the batch (risking
a duplicate); only a successful probe that finds the URL makes the entry
a counted skip. -/
theorem C5_probe_failure_does_not_abort (cfg : Cfg) (st : IngestState)
    (e : Entry) (u : List Char)
    (hb : blobOf e ≠ []) (hl : normField e.link = some u) :
    (cfg.probeFails u = true →
      processEntry cfg st e = { st with rows := st.rows ++ [mkRow cfg e] })
    ∧ (cfg.probeFails u = false → urlInRows cfg.store u = true →
      processEntry cfg st e = { st with skipped := st.skipped + 1 }) := by
  constructor
  · intro hp
    simp [processEntry, hb, hl, hp]
  · intro hp hf
    simp [processEntry, hb, hl, hp, hf]

/-- Witness for C5: with a probe oracle that always fails, a non-empty
entry with a URL still lands in the batch. -/
theorem C5_probe_failure_does_not_abort_witness :
    blobOf ⟨some (chars "hola"), some (chars "http:x"), none, none⟩ ≠ []
    ∧ normField (Entry.link ⟨some (chars "hola"), some (chars "http:x"), none, none⟩)
        = some (chars "http:x")
    ∧ processEntry ⟨"EC", none, "t", 0, [], fun _ => true⟩ ⟨[], 0⟩
        ⟨some (chars "hola"), some (chars "http:x"), none, none⟩
      = ⟨[mkRow ⟨"EC", none, "t", 0, [], fun _ => true⟩
            ⟨some (chars "hola"), some (chars "http:x"), none, none⟩], 0⟩ := by
  refine ⟨by decide, by decide, ?_⟩
  have h := (C5_probe_failure_does_not_abort ⟨"EC", none, "t", 0, [], fun _ => true⟩
      ⟨[], 0⟩ ⟨some (chars "hola"), some (chars "http:x"), none, none⟩
      (chars "http:x") (by decide) (by decide)).1 rfl
  simpa using h

/-- C6: an unreachable or malformed feed source (whose parse yields no
entries) does not abort the run: inserted, skipped and the batch are the
same as without that source, and the returned feeds_used still counts the
whole list. -/
theorem C6_bad_feed_does_not_abort (cfg : Cfg) (limit : Nat)
    (fs₁ fs₂ : List Feed) :
    (ingest_rss cfg limit (fs₁ ++ (none : Feed) :: fs₂)).inserted
        = (ingest_rss cfg limit (fs₁ ++ fs₂)).inserted
    ∧ (ingest_rss cfg limit (fs₁ ++ (none : Feed) :: fs₂)).skipped
        = (ingest_rss cfg limit (fs₁ ++ fs₂)).skipped
    ∧ (ingest_rss cfg limit (fs₁ ++ (none : Feed) :: fs₂)).rows
        = (ingest_rss cfg limit (fs₁ ++ fs₂)).rows
    ∧ (ingest_rss cfg limit (fs₁ ++ (none : Feed) :: fs₂)).feeds_used
        = (fs₁ ++ fs₂).length + 1 := by
  have hnone : ∀ st : IngestState, runFeed cfg limit st none = st := by
    intro st
    simp [runFeed, fetchFeed]
  have hfold : (fs₁ ++ (none : Feed) :: fs₂).foldl (runFeed cfg limit) ⟨[], 0⟩
      = (fs₁ ++ fs₂).foldl (runFeed cfg limit) ⟨[], 0⟩ := by
    rw [List.foldl_append, List.foldl_append, List.foldl_cons, hnone]
  refine ⟨?_, ?_, ?_, ?_⟩
  · simp only [ingest_rss, hfold]
  · simp only [ingest_rss, hfold]
  · simp only [ingest_rss, hfold]
  · simp only [ingest_rss]
    simp [List.length_append]
    omega

/-- Witness for C1: all-positive (7,0,0) gives 100 and all-negative
(0,0,4) gives 0. -/
theorem C1_reputation_index_range_and_anchors_witness :
    (0 < 7 ∧ reputation_index 7 0 0 = 100)
    ∧ (0 < 4 ∧ reputation_index 0 0 4 = 0) :=
  ⟨⟨by norm_num,
    (C1_reputation_index_range_and_anchors 7 0 4).2.2.2.1 (by norm_num)⟩,
   ⟨by norm_num,
    (C1_reputation_index_range_and_anchors 7 0 4).2.2.2.2 (by norm_num)⟩⟩

theorem urlInRows_append (a b : List Row) (u : List Char) :
    urlInRows (a ++ b) u = (urlInRows a u || urlInRows b u) := by
  simp [urlInRows, List.any_append]

theorem ingest_rows_eq (cfg : Cfg) (limit : Nat) (feeds : List Feed) :
    (ingest_rss cfg limit feeds).rows
      = ((entryStream limit feeds).foldl (processEntry cfg) ⟨[], 0⟩).rows := by
  simp only [ingest_rss, foldl_feeds_eq_stream]

theorem ingest_inserted_eq (cfg : Cfg) (limit : Nat) (feeds : List Feed) :
    (ingest_rss cfg limit feeds).inserted
      = ((entryStream limit feeds).foldl (processEntry cfg) ⟨[], 0⟩).rows.length := by
  simp only [ingest_rss, foldl_feeds_eq_stream]

theorem mkRow_url (cfg : Cfg) (e : Entry) : (mkRow cfg e).url = normField e.link := rfl

theorem run_covers_url (cfg : Cfg) :
    ∀ (es : List Entry) (st : IngestState) (e : Entry), e ∈ es →
      blobOf e ≠ [] → ∀ u, normField e.link = some u →
      urlInRows cfg.store u = true
      ∨ urlInRows (es.foldl (processEntry cfg) st).rows u = true
  | [], _, e, he => absurd he (List.not_mem_nil e)
  | f :: fs, st, e, he => by
    intro hb u hu
    rcases List.mem_cons.mp he with rfl | hmem
    · have hrow : (processEntry cfg st e).rows = st.rows ++ [mkRow cfg e]
          ∨ urlInRows cfg.store u = true := by
        by_cases hp : cfg.probeFails u
        · exact Or.inl (by simp [processEntry, hb, hu, hp])
        · by_cases hf : urlInRows cfg.store u
          · exact Or.inr hf
          · exact Or.inl (by simp [processEntry, hb, hu, hp, hf])
      rcases hrow with hrow | hseen
      · right
        obtain ⟨t, ht⟩ := foldl_rows_append cfg fs (processEntry cfg st e)
        rw [List.foldl_cons, ht, hrow]
        have hmk : (mkRow cfg e).url = some u := by rw [mkRow_url, hu]
        rw [List.append_assoc, urlInRows_append]
        have : urlInRows ([mkRow cfg e] ++ t) u = true := by
          rw [urlInRows_append]
          have h1 : urlInRows [mkRow cfg e] u = true := by simp [urlInRows, hmk]
          rw [h1]
          rfl
        rw [this]
        exact Bool.or_true _
      · exact Or.inl hseen
    · rw [List.foldl_cons]
      exact run_covers_url cfg fs (processEntry cfg st f) e hmem hb u hu

theorem run_all_seen_no_rows (cfg : Cfg) :
    ∀ (es : List Entry) (st : IngestState),
      (∀ e ∈ es, blobOf e ≠ [] →
        ∃ u, normField e.link = some u ∧ cfg.probeFails u = false
          ∧ urlInRows cfg.store u = true) →
      (es.foldl (processEntry cfg) st).rows = st.rows
  | [], _, _ => rfl
  | f :: fs, st, h => by
    have hst : (processEntry cfg st f).rows = st.rows := by
      by_cases hb : blobOf f = []
      · simp [processEntry, hb]
      · obtain ⟨u, hu, hp, hseen⟩ := h f (List.mem_cons_self f fs) hb
        simp [processEntry, hb, hu, hp, hseen]
    rw [List.foldl_cons,
      run_all_seen_no_rows cfg fs (processEntry cfg st f)
        (fun e he => h e (List.mem_cons_of_mem f he))]
    exact hst

/-- C4 (amended): re-running ingestion over unchanged feeds with the
store available inserts nothing on the second run, provided every entry
with a non-empty blob carries a URL — an entry without a URL can never be
recognized as existing and is re-inserted (see the counterexample). -/
theorem C4_second_run_inserts_nothing
    (country : String) (city : Option String) (target : String)
    (now₁ now₂ limit : Nat) (store₀ : List Row) (feeds : List Feed)
    (hurl : ∀ f ∈ feeds, ∀ e ∈ fetchFeed limit f,
      blobOf e ≠ [] → normField e.link ≠ none) :
    (ingest_rss
      ⟨country, city, target, now₂,
        store₀ ++ (ingest_rss ⟨country, city, target, now₁, store₀,
          fun _ => false⟩ limit feeds).rows,
        fun _ => false⟩ limit feeds).inserted = 0 := by
  have hr₁ := ingest_rows_eq ⟨country, city, target, now₁, store₀,
      fun _ => false⟩ limit feeds
  have hcov : ∀ e ∈ entryStream limit feeds, blobOf e ≠ [] →
      ∃ u, normField e.link = some u
        ∧ (fun (_ : List Char) => false) u = false
        ∧ urlInRows (store₀ ++ (ingest_rss ⟨country, city, target, now₁, store₀,
            fun _ => false⟩ limit feeds).rows) u = true := by
    intro e he hb
    obtain ⟨f, hf, hef⟩ := mem_entryStream.mp he
    have hlink := hurl f hf e hef hb
    obtain ⟨u, hu⟩ := Option.ne_none_iff_exists.mp hlink
    refine ⟨u, hu.symm, rfl, ?_⟩
    rw [urlInRows_append]
    rcases run_covers_url ⟨country, city, target, now₁, store₀, fun _ => false⟩
        (entryStream limit feeds) ⟨[], 0⟩ e he hb u hu.symm with hseen | hnew
    · rw [hseen]
      rfl
    · rw [hr₁, hnew]
      exact Bool.or_true _
  have hdone := run_all_seen_no_rows
      ⟨country, city, target, now₂,
        store₀ ++ (ingest_rss ⟨country, city, target, now₁, store₀,
          fun _ => false⟩ limit feeds).rows,
        fun _ => false⟩
      (entryStream limit feeds) ⟨[], 0⟩ hcov
  rw [ingest_inserted_eq, hdone]
  rfl

/-- Counterexample to C4 as stated: a feed whose only entry has text but
no URL is re-inserted by the second run (the store is available and the
first run's insert succeeded), so the second run's inserted count is not
zero. -/
theorem C4_counterexample :
    (ingest_rss
      ⟨"EC", none, "t", 1,
        (ingest_rss ⟨"EC", none, "t", 0, [], fun _ => false⟩ 5
          [some [⟨some (chars "hay crisis"), none, none, none⟩]]).rows,
        fun _ => false⟩ 5
      [some [⟨some (chars "hay crisis"), none, none, none⟩]]).inserted ≠ 0 := by
  decide

/-- Witness for C4: a feed whose single entry does carry a URL is fully
deduplicated on the second run. -/
theorem C4_second_run_inserts_nothing_witness :
    (∀ f ∈ [some [(⟨some (chars "hay crisis"), some (chars "http:z"), none,
          none⟩ : Entry)]],
      ∀ e ∈ fetchFeed 5 f, blobOf e ≠ [] → normField e.link ≠ none)
    ∧ (ingest_rss
        ⟨"EC", none, "t", 1,
          [] ++ (ingest_rss ⟨"EC", none, "t", 0, [], fun _ => false⟩ 5
            [some [⟨some (chars "hay crisis"), some (chars "http:z"), none,
              none⟩]]).rows,
          fun _ => false⟩ 5
        [some [⟨some (chars "hay crisis"), some (chars "http:z"), none,
          none⟩]]).inserted = 0 := by
  refine ⟨by decide, ?_⟩
  exact C4_second_run_inserts_nothing "EC" none "t" 0 1 5 []
    [some [⟨some (chars "hay crisis"), some (chars "http:z"), none, none⟩]]
    (by decide)

theorem dropWhile_head_false {α : Type} (p : α → Bool) :
    ∀ (l : List α) (c : α) (cs : List α), l.dropWhile p = c :: cs → p c = false
  | [], c, cs => fun h => by simp [List.dropWhile] at h
  | a :: as, c, cs => fun h => by
    rw [List.dropWhile_cons] at h
    by_cases hp : p a
    · rw [if_pos hp] at h
      exact dropWhile_head_false p as c cs h
    · rw [if_neg hp] at h
      injection h with h1 _
      rw [← h1]
      simp at hp
      exact hp

theorem dropWhile_append_left {α : Type} (p : α → Bool) :
    ∀ (l₁ l₂ : List α), l₁.dropWhile p = [] →
      (l₁ ++ l₂).dropWhile p = l₂.dropWhile p
  | [], _, _ => rfl
  | a :: as, l₂, h => by
    rw [List.dropWhile_cons] at h
    by_cases hp : p a
    · rw [if_pos hp] at h
      rw [List.cons_append, List.dropWhile_cons, if_pos hp]
      exact dropWhile_append_left p as l₂ h
    · rw [if_neg hp] at h
      exact absurd h (List.cons_ne_nil a as)

theorem dropWhile_append_right {α : Type} (p : α → Bool) :
    ∀ (l₁ l₂ : List α), l₁.dropWhile p ≠ [] →
      (l₁ ++ l₂).dropWhile p = l₁.dropWhile p ++ l₂
  | [], _, h => absurd rfl h
  | a :: as, l₂, h => by
    rw [List.cons_append, List.dropWhile_cons, List.dropWhile_cons]
    by_cases hp : p a
    · rw [if_pos hp, if_pos hp]
      rw [List.dropWhile_cons, if_pos hp] at h
      exact dropWhile_append_right p as l₂ h
    · rw [if_neg hp, if_neg hp, List.cons_append]

theorem dropTrailing_cons_of_head {c : Char} (hc : isWsp c = false)
    (xs : List Char) : dropTrailing (c :: xs) = c :: dropTrailing xs := by
  unfold dropTrailing
  rw [List.reverse_cons]
  by_cases h : xs.reverse.dropWhile isWsp = []
  · rw [dropWhile_append_left isWsp xs.reverse [c] h, h]
    simp [List.dropWhile, hc]
  · rw [dropWhile_append_right isWsp xs.reverse [c] h, List.reverse_append]
    simp

theorem trimList_shape {l : List Char} (h : trimList l ≠ []) :
    ∃ c cs, trimList l = c :: cs ∧ isWsp c = false := by
  unfold trimList at h ⊢
  cases hd : l.dropWhile isWsp with
  | nil =>
    rw [hd] at h
    simp [dropTrailing] at h
  | cons c cs =>
    have hc : isWsp c = false := dropWhile_head_false isWsp l c cs hd
    rw [dropTrailing_cons_of_head hc]
    exact ⟨c, dropTrailing cs, rfl, hc⟩

theorem trimList_take_ne_nil {l : List Char} {n : Nat} (hn : 0 < n)
    (h : trimList l ≠ []) : trimList ((trimList l).take n) ≠ [] := by
  obtain ⟨c, cs, heq, hc⟩ := trimList_shape h
  rw [heq]
  cases n with
  | zero => exact absurd hn (by omega)
  | succ m =>
    rw [List.take_succ_cons]
    unfold trimList
    rw [List.dropWhile_cons, if_neg (by simp [hc]),
      dropTrailing_cons_of_head hc]
    simp

theorem foldl_rows_from (cfg : Cfg) :
    ∀ (es : List Entry) (st : IngestState) (r : Row),
      r ∈ (es.foldl (processEntry cfg) st).rows →
      r ∈ st.rows ∨ ∃ e ∈ es, blobOf e ≠ [] ∧ r = mkRow cfg e
  | [], _, _ => fun h => Or.inl h
  | f :: fs, st, r => by
    intro h
    rw [List.foldl_cons] at h
    rcases foldl_rows_from cfg fs (processEntry cfg st f) r h
        with hmem | ⟨e, he, hb, hr⟩
    · rcases processEntry_rows_cases cfg st f with hc | ⟨hb, hc⟩
      · rw [hc] at hmem
        exact Or.inl hmem
      · rw [hc] at hmem
        rcases List.mem_append.mp hmem with h1 | h2
        · exact Or.inl h1
        · exact Or.inr ⟨f, List.mem_cons_self f fs, hb, List.mem_singleton.mp h2⟩
    · exact Or.inr ⟨e, List.mem_cons_of_mem f he, hb, hr⟩

/-- C9: every row an ingestion run puts in its batch has text that is
non-empty after trimming and at most 2000 characters long. -/
theorem C9_ingested_text_nonempty_bounded (cfg : Cfg) (limit : Nat)
    (feeds : List Feed) (r : Row)
    (h : r ∈ (ingest_rss cfg limit feeds).rows) :
    trimList r.text ≠ [] ∧ r.text.length ≤ 2000 := by
  rw [ingest_rows_eq] at h
  rcases foldl_rows_from cfg (entryStream limit feeds) ⟨[], 0⟩ r h
      with hmem | ⟨e, _, hb, hr⟩
  · exact absurd hmem (List.not_mem_nil r)
  · subst hr
    have htext : (mkRow cfg e).text = (blobOf e).take 2000 := rfl
    rw [htext]
    constructor
    · have hb2 : trimList (joinSp
          (([normField e.title, normField e.summary]).filterMap id)) ≠ [] := hb
      exact trimList_take_ne_nil (by omega) hb2
    · rw [List.length_take]
      omega

/-- Witness for C9: a one-entry feed produces exactly the row built from
that entry, which satisfies both text invariants. -/
theorem C9_ingested_text_nonempty_bounded_witness :
    mkRow ⟨"EC", none, "t", 9, [], fun _ => false⟩
        ⟨some (chars "hay crisis"), none, none, none⟩
      ∈ (ingest_rss ⟨"EC", none, "t", 9, [], fun _ => false⟩ 5
          [some [⟨some (chars "hay crisis"), none, none, none⟩]]).rows
    ∧ trimList (mkRow ⟨"EC", none, "t", 9, [], fun _ => false⟩
        ⟨some (chars "hay crisis"), none, none, none⟩).text ≠ []
    ∧ (mkRow ⟨"EC", none, "t", 9, [], fun _ => false⟩
        ⟨some (chars "hay crisis"), none, none, none⟩).text.length ≤ 2000 := by
  refine ⟨by decide, ?_, ?_⟩
  · exact (C9_ingested_text_nonempty_bounded ⟨"EC", none, "t", 9, [], fun _ => false⟩
      5 [some [⟨some (chars "hay crisis"), none, none, none⟩]] _ (by decide)).1
  · exact (C9_ingested_text_nonempty_bounded ⟨"EC", none, "t", 9, [], fun _ => false⟩
      5 [some [⟨some (chars "hay crisis"), none, none, none⟩]] _ (by decide)).2

theorem normSent_cases (s : Option String) :
    normSent s = "pos" ∨ normSent s = "neu" ∨ normSent s = "neg" := by
  unfold normSent
  dsimp only
  split
  · rename_i h
    exact h
  · exact Or.inr (Or.inl rfl)

theorem bumpAgg_inv (r : TopicAgg) (s : String)
    (hinv : r.pos + r.neu + r.neg = r.count)
    (hs : s = "pos" ∨ s = "neu" ∨ s = "neg") :
    (bumpAgg r s).pos + (bumpAgg r s).neu + (bumpAgg r s).neg
      = (bumpAgg r s).count := by
  rcases hs with rfl | rfl | rfl
  · simp [bumpAgg]
    omega
  · simp [bumpAgg]
    omega
  · simp [bumpAgg]
    omega

theorem updAgg_inv (tp s : String) (hs : s = "pos" ∨ s = "neu" ∨ s = "neg") :
    ∀ (m : List TopicAgg),
      (∀ r ∈ m, r.pos + r.neu + r.neg = r.count) →
      ∀ r ∈ updAgg tp s m, r.pos + r.neu + r.neg = r.count
  | [], _ => by
    intro r hr
    simp only [updAgg, List.mem_singleton] at hr
    subst hr
    exact bumpAgg_inv ⟨tp, 0, 0, 0, 0⟩ s rfl hs
  | q :: rest, h => by
    intro r hr
    unfold updAgg at hr
    by_cases hq : q.topic = tp
    · rw [if_pos hq] at hr
      rcases List.mem_cons.mp hr with rfl | hmem
      · exact bumpAgg_inv q s (h q (List.mem_cons_self q rest)) hs
      · exact h r (List.mem_cons_of_mem q hmem)
    · rw [if_neg hq] at hr
      rcases List.mem_cons.mp hr with rfl | hmem
      · exact h r (List.mem_cons_self r rest)
      · exact updAgg_inv tp s hs rest
          (fun x hx => h x (List.mem_cons_of_mem q hx)) r hmem

theorem bumpAgg_count (r : TopicAgg) (s : String) :
    (bumpAgg r s).count = r.count + 1 := rfl

theorem updAgg_sum (tp s : String) :
    ∀ m : List TopicAgg, sumCounts (updAgg tp s m) = sumCounts m + 1
  | [] => by simp [updAgg, sumCounts, bumpAgg]
  | q :: rest => by
    unfold updAgg
    by_cases hq : q.topic = tp
    · rw [if_pos hq]
      simp only [sumCounts, List.map_cons, List.sum_cons, bumpAgg_count]
      omega
    · rw [if_neg hq]
      have hr := updAgg_sum tp s rest
      simp only [sumCounts, List.map_cons, List.sum_cons] at hr ⊢
      omega

theorem trendingAgg_fold_inv :
    ∀ (items : List TrendItem) (m : List TopicAgg),
      (∀ r ∈ m, r.pos + r.neu + r.neg = r.count) →
      ∀ r ∈ items.foldl
          (fun m it => updAgg (normTopic it.topic) (normSent it.sentiment) m) m,
        r.pos + r.neu + r.neg = r.count
  | [], _, h => h
  | it :: its, m, h => by
    rw [List.foldl_cons]
    exact trendingAgg_fold_inv its _
      (updAgg_inv _ _ (normSent_cases it.sentiment) m h)

theorem trendingAgg_fold_sum :
    ∀ (items : List TrendItem) (m : List TopicAgg),
      sumCounts (items.foldl
          (fun m it => updAgg (normTopic it.topic) (normSent it.sentiment) m) m)
        = sumCounts m + items.length
  | [], _ => by simp
  | it :: its, m => by
    rw [List.foldl_cons, trendingAgg_fold_sum its _, updAgg_sum]
    simp only [List.length_cons]
    omega

/-- C8: in every per-topic aggregate row the trending pipeline produces,
the pos, neu and neg counters sum exactly to the row's mention count, and
the mention counts over all rows sum to the number of input mentions —
each mention lands in exactly one of the three counters (unrecognized
sentiment values are counted as neutral). -/
theorem C8_trending_counts_sum (items : List TrendItem) (r : TopicAgg)
    (h : r ∈ trendingAgg items) :
    r.pos + r.neu + r.neg = r.count
    ∧ sumCounts (trendingAgg items) = items.length := by
  constructor
  · exact trendingAgg_fold_inv items [] (by simp) r h
  · have hs := trendingAgg_fold_sum items []
    simpa [sumCounts] using hs

/-- Witness for C8: two mentions on the same topic, one positive and one
with an unrecognized sentiment (counted as neutral). -/
theorem C8_trending_counts_sum_witness :
    (⟨"agua", 2, 1, 1, 0⟩ : TopicAgg) ∈ trendingAgg
        [⟨some "agua", some "pos"⟩, ⟨some "agua", some "zzz"⟩]
    ∧ (1 + 1 + 0 = 2
      ∧ sumCounts (trendingAgg
          [⟨some "agua", some "pos"⟩, ⟨some "agua", some "zzz"⟩]) = 2) := by
  refine ⟨by decide, ?_⟩
  exact C8_trending_counts_sum
    [⟨some "agua", some "pos"⟩, ⟨some "agua", some "zzz"⟩]
    ⟨"agua", 2, 1, 1, 0⟩ (by decide)

theorem parse_window_formfeed_inner : parse_window "2\x0ch" = 2 := by decide

theorem parse_window_vtab_inner : parse_window "2\x0bh" = 2 := by decide

theorem parse_window_formfeed_padded : parse_window " \x0c6h " = 6 := by decide

theorem parse_window_formfeed_trailing : parse_window "6h\x0c" = 6 := by decide

